import Mathlib

/-!
Shallow embedding of `src/src/modules/editors.cpp` (Aseprite editor-pane
module): the editor registry, the active-editor pointer, the widget tree of
editor views and splitters under the main editor box, and the mini-editor
(preview) window state.

Editors are identified by natural-number ids standing for the C++ widget
pointers; allocation freshness of `new` is modelled by drawing ids from a
monotone counter `nextId`.  Documents are identified by natural-number ids;
each document owns exactly one sprite, so sprite identity coincides with
document identity (`Document::getSprite` is injective and non-null).
-/

namespace Editors

/-- Kind tag of a registry entry, `EditorItem::Type` in the source. -/
inductive EKind where
  | Normal
  | Mini
deriving DecidableEq, Repr

/-- The widget subtree hanging under `box_editors`: an editor view leaf
(the `View` widget whose viewport holds the editor widget), or a `Splitter`
with an alignment and exactly the two children the source attaches. -/
inductive Widget where
  | view (e : Nat)
  | splitter (align : Int) (l r : Widget)
deriving DecidableEq, Repr

/-- Editor ids of the views in a subtree, in depth-first (child order)
traversal order. -/
def treeViews : Widget → List Nat
  | .view e => [e]
  | .splitter _ l r => treeViews l ++ treeViews r

/-- Whether the view of editor `e` occurs in the subtree. -/
def containsView (w : Widget) (e : Nat) : Bool :=
  (treeViews w).contains e

/-- Number of splitter ancestors above the view of `e` inside the subtree
(first occurrence, left first); `none` when the view is absent. -/
def viewAnc : Widget → Nat → Option Nat
  | .view x, e => if x = e then some 0 else none
  | .splitter _ l r, e =>
    match viewAnc l e with
    | some n => some (n + 1)
    | none =>
      match viewAnc r e with
      | some n => some (n + 1)
      | none => none

/-- Replace the view of editor `e` (first occurrence) by the widget `w`,
modelling `parent_box->replaceChild(view, new_splitter)` in `split_editor`. -/
def splitAt : Widget → Nat → Widget → Widget
  | .view x, e, w => if x = e then w else .view x
  | .splitter a l r, e, w =>
    if containsView l e then .splitter a (splitAt l e w) r
    else .splitter a l (splitAt r e w)

/-- Remove the view of editor `e` from the subtree and collapse its parent
splitter, as `close_editor` does: the view is detached and destroyed, the
remaining sibling (`other_widget`, which is the first remaining child of the
splitter) replaces the splitter in the grandparent.  Returns the new subtree
together with `other_widget`.  `none` models the assertion-level tree shapes
the source does not support (view absent, or the view is the direct child of
`box_editors`, which cannot happen while a second normal editor exists). -/
def spliceOut : Widget → Nat → Option (Widget × Widget)
  | .view _, _ => none
  | .splitter a l r, e =>
    if l = .view e then some (r, r)
    else if r = .view e then some (l, l)
    else
      match spliceOut l e with
      | some p => some (.splitter a p.1 r, p.2)
      | none =>
        match spliceOut r e with
        | some p => some (.splitter a l p.1, p.2)
        | none => none

/-- Depth-first search for the first editor in a subtree,
`find_next_editor` in the source.  On our tree type every subtree contains
an editor view, so the search is total. -/
def find_next_editor : Widget → Nat
  | .view e => e
  | .splitter _ l _ => find_next_editor l

/-- The persisted configuration written by `exit_module_editors`
(`set_config_bool("MiniEditor", "Enabled", mini_editor_enabled)`). -/
structure Config where
  miniEnabledSaved : Bool
deriving DecidableEq, Repr

/-- The module state: the file-scope globals of `editors.cpp` plus the
relevant collaborator state (active document, open-document list, redraw
request flags).  `doc`, `zoom` and `docHasSprite` are total maps from ids to
the corresponding editor/document attributes. -/
structure State where
  /-- the `editors` registry: (editor id, kind) in insertion order -/
  editors : List (Nat × EKind)
  /-- `current_editor` -/
  current_editor : Option Nat
  /-- the single child of `box_editors` -/
  tree : Widget
  /-- `Editor::getDocument` per editor id -/
  doc : Nat → Option Nat
  /-- `Editor::getZoom` per editor id -/
  zoom : Nat → Int
  /-- whether `Document::getSprite` is non-null for a document id -/
  docHasSprite : Nat → Bool
  /-- allocation counter: ids of all live editors are below it -/
  nextId : Nat
  /-- number of widget ancestors above `box_editors` (main-window chain) -/
  topExtra : Nat
  /-- `mini_editor` (id of the registered Mini editor, if created) -/
  mini_editor : Option Nat
  /-- whether `mini_editor_window` is non-null -/
  mini_editor_window : Bool
  /-- whether the mini-editor window is visible (open) -/
  miniVisible : Bool
  /-- `mini_editor_enabled` -/
  mini_editor_enabled : Bool
  /-- `UIContext::getActiveDocument` -/
  activeDocument : Option Nat
  /-- `UIContext::getDocuments`, in native order -/
  openDocs : List Nat
  /-- whether `app_refresh_screen` has been requested -/
  refreshed : Bool
  /-- whether `app_rebuild_documents_tabs` has been requested -/
  tabsRebuilt : Bool
  /-- number of `Alert::show` calls issued -/
  alerts : Nat

/-- Ids of all registry entries. -/
def registryIds (st : State) : List Nat :=
  st.editors.map Prod.fst

/-- The Normal entries of the registry. -/
def normals (st : State) : List (Nat × EKind) :=
  st.editors.filter (fun p => decide (p.2 = EKind.Normal))

/-- Ids of the Normal entries. -/
def normalIds (st : State) : List Nat :=
  (normals st).map Prod.fst

/-- Number of Normal entries, as counted by the loop in `close_editor`. -/
def normalCount (st : State) : Nat :=
  (normals st).length

/-- Kind of the first registry entry for an editor id (the entry at which
the lookup loops in the source break), `none` when unregistered. -/
def kindOf (st : State) (e : Nat) : Option EKind :=
  (st.editors.find? (fun p => p.1 == e)).map (fun p => p.2)

/-- Source `is_document_in_some_editor`: whether some registry entry
(Normal or Mini) currently references the document. -/
def is_document_in_some_editor (st : State) (d : Nat) : Bool :=
  st.editors.any (fun p => st.doc p.1 == some d)

/-- Source `get_more_reliable_document`: the first open document, in the
context's native order, not shown in any editor. -/
def get_more_reliable_document (st : State) : Option Nat :=
  st.openDocs.find? (fun d => !is_document_in_some_editor st d)

/-- Source `create_new_editor`: allocate a fresh Normal editor (document
null, zoom 0, per the `Editor` constructor) and append it to the registry.
Returns the new id with the new state. -/
def create_new_editor (st : State) : Nat × State :=
  (st.nextId,
   { st with
     editors := st.editors ++ [(st.nextId, EKind.Normal)],
     nextId := st.nextId + 1,
     doc := fun i => if i = st.nextId then none else st.doc i,
     zoom := fun i => if i = st.nextId then 0 else st.zoom i })

/-- What delivered the mini-window close event: the theme's close button
(`SkinTheme::kThemeCloseButtonId`), or anything else (in particular the
null killer passed by `closeWindow(NULL)` on the programmatic path). -/
inductive CloseSource where
  | closeButton
  | other
deriving DecidableEq, Repr

/-- Closing the mini-editor window, folding `Window::closeWindow` (the
window ends hidden) with `MiniEditorWindow::onClose`: only when the event
source is the theme close button is `mini_editor_enabled` cleared (the
source deliberately bypasses `enable_mini_editor` there). -/
def mini_window_close (st : State) (src : CloseSource) : State :=
  let st1 := { st with miniVisible := false }
  match src with
  | .closeButton => { st1 with mini_editor_enabled := false }
  | .other => st1

/-- Source `hide_mini_editor_window`: `closeWindow(NULL)` when the window
exists and is visible.  Modelled from the spec: the toolkit's close event
for a null killer does not come from the theme close button, so the
programmatic path leaves `mini_editor_enabled` untouched. -/
def hide_mini_editor_window (st : State) : State :=
  if st.mini_editor_window && st.miniVisible then mini_window_close st .other
  else st

/-- Source `exit_module_editors`, restricted to its persistent effect:
the `mini_editor_enabled` flag is written to the settings store. -/
def exit_module_editors (st : State) : Config :=
  { miniEnabledSaved := st.mini_editor_enabled }

/-- Source `create_mini_editor_window`: allocate the window and a fresh
`MiniEditor` (document null, zoom 0), register it with kind Mini.  Window
geometry is not modelled. -/
def create_mini_editor_window (st : State) : State :=
  { st with
    mini_editor_window := true,
    mini_editor := some st.nextId,
    editors := st.editors ++ [(st.nextId, EKind.Mini)],
    nextId := st.nextId + 1,
    doc := fun i => if i = st.nextId then none else st.doc i,
    zoom := fun i => if i = st.nextId then 0 else st.zoom i }

/-- The show condition of `update_mini_editor_window`: the editor's
document exists with a loaded sprite, and either the mini editor was not
created yet and the editor is zoomed in, or it was and the two zooms
differ. -/
def miniShowCond (st : State) (e : Nat) : Bool :=
  match st.doc e with
  | none => false
  | some d =>
    st.docHasSprite d &&
      (match st.mini_editor with
       | none => decide (0 < st.zoom e)
       | some m => decide (st.zoom m ≠ st.zoom e))

/-- Step of the show branch: `openWindow` when the window is not visible. -/
def openMiniIfHidden (st : State) : State :=
  if st.miniVisible then st else { st with miniVisible := true }

/-- Step of the show branch: re-synchronize the mini editor's document when
it changed, resetting its zoom to 0 (`setDocument`/`setZoom`/`setState` in
the source).  The `none` branch is unreachable in states the source can
produce (window and mini editor are created together). -/
def syncMiniDoc (st : State) (d : Nat) : State :=
  match st.mini_editor with
  | some m =>
    if st.doc m = some d then st
    else
      { st with
        doc := fun i => if i = m then some d else st.doc i,
        zoom := fun i => if i = m then 0 else st.zoom i }
  | none => st

/-- The show branch of `update_mini_editor_window`: create the window on
first use, open it if hidden, and re-synchronize the mini editor's
document.  `d` is the document of the active editor computed by the
caller. -/
def showMini (st : State) (d : Nat) : State :=
  syncMiniDoc
    (openMiniIfHidden
      (if st.mini_editor_window then st else create_mini_editor_window st)) d

/-- Source `update_mini_editor_window`: hide when the preview is disabled
or there is no editor; show per `miniShowCond`; otherwise hide (closing,
not destroying, the window). -/
def update_mini_editor_window (st : State) (e? : Option Nat) : State :=
  match e? with
  | none => hide_mini_editor_window st
  | some e =>
    if !st.mini_editor_enabled then hide_mini_editor_window st
    else
      match st.doc e with
      | some d =>
        if miniShowCond st e then showMini st d
        else hide_mini_editor_window st
      | none => hide_mini_editor_window st

/-- Source `set_current_editor`: no-op when already current; the registry
lookup loop breaks at the first entry for the editor and refuses a
non-Normal one; otherwise the editor becomes current, its document becomes
the context's active document, screen refresh and tab rebuild are
requested, and the mini editor is re-synchronized. -/
def set_current_editor (st : State) (e : Nat) : State :=
  if st.current_editor = some e then st
  else if (match st.editors.find? (fun p => p.1 == e) with
           | some p => decide (p.2 ≠ EKind.Normal)
           | none => false) then st
  else
    let st1 :=
      { st with
        current_editor := some e,
        activeDocument := st.doc e,
        refreshed := true,
        tabsRebuilt := true }
    update_mini_editor_window st1 (some e)

/-- Source `enable_mini_editor`: set the flag and re-synchronize against
the current editor. -/
def enable_mini_editor (st : State) (state : Bool) : State :=
  update_mini_editor_window { st with mini_editor_enabled := state }
    st.current_editor

/-- Number of widget ancestors of the editor widget of `e`
(source `count_parents`): the viewport and the view above the editor, the
splitters above the view, `box_editors`, and the `topExtra` widgets above
`box_editors`; `none` when the view is not in the modelled tree. -/
def count_parents (st : State) (e : Nat) : Option Nat :=
  (viewAnc st.tree e).map (fun n => n + 3 + st.topExtra)

/-- Source `split_editor`: refuse with an alert beyond 10 ancestor levels;
otherwise create a fresh Normal editor showing the same document at the
same zoom and wrap both views in a new splitter at the old view's tree
position.  Scroll offsets and pixel geometry are not modelled.  `none` when
the editor's view is not in the modelled tree. -/
def split_editor (st : State) (e : Nat) (align : Int) : Option State :=
  match count_parents st e with
  | none => none
  | some cp =>
    if cp > 10 then some { st with alerts := st.alerts + 1 }
    else
      let n := st.nextId
      let st1 := (create_new_editor st).2
      some
        { st1 with
          tree := splitAt st.tree e (.splitter align (.view e) (.view n)),
          doc := fun i => if i = n then st.doc e else st.doc i,
          zoom := fun i => if i = n then st.zoom e else st.zoom i }

/-- Source `close_editor`.  The reads before the Normal-entry count have no
effect, so the count is taken first here; with exactly one Normal entry the
call returns with nothing changed.  Otherwise the view is detached and
destroyed and its parent splitter collapsed (`spliceOut`); destroying the
editor widget runs `Editor::~Editor`, which — modelled from the spec's
lifecycle ("pane entries are removed when the surface is closed", remove is
erase by identity) — deregisters the editor.  If the closed editor was
current, the first editor found depth-first in the surviving sibling is
made current.  `none` models the assertion-level tree shapes the source
does not support. -/
def close_editor (st : State) (e : Nat) : Option State :=
  if normalCount st = 1 then some st
  else
    match spliceOut st.tree e with
    | none => none
    | some p =>
      let cur1 := if st.current_editor = some e then none else st.current_editor
      let st1 :=
        { st with
          tree := p.1,
          current_editor := cur1,
          editors := st.editors.filter (fun q => decide (q.1 ≠ e)) }
      match cur1 with
      | none => some (set_current_editor st1 (find_next_editor p.2))
      | some _ => some st1

/-- Source `make_unique_editor`: no-op when the registry has exactly one
entry (of any kind).  Otherwise the editor's view is detached, every child
remaining under `box_editors` is destroyed — deregistering (spec lifecycle,
as in `close_editor`) every editor in those subtrees — the view becomes the
sole child of the box, and the editor is made current. -/
def make_unique_editor (st : State) (e : Nat) : State :=
  if st.editors.length = 1 then st
  else
    let destroyed := (treeViews st.tree).erase e
    let st1 :=
      { st with
        tree := .view e,
        editors := st.editors.filter (fun q => decide (q.1 ∉ destroyed)) }
    set_current_editor st1 e

/-- The rebinding loop of `editors_hide_document`: each registry entry whose
editor references the hidden document is rebound to
`get_more_reliable_document` evaluated against the registry at that point,
so earlier rebindings are visible to later fallback picks. -/
def hideDocLoop (target : Nat) : State → List (Nat × EKind) → State
  | st, [] => st
  | st, p :: rest =>
    if st.doc p.1 = some target then
      hideDocLoop target
        { st with
          doc := fun i =>
            if i = p.1 then get_more_reliable_document st else st.doc i }
        rest
    else hideDocLoop target st rest

/-- Source `editors_hide_document`.  The refresh flag compares the active
document's sprite with the hidden document's sprite; sprites are in
bijection with documents here, so it is document identity.  On the refresh
path the source dereferences `current_editor`; `none` models the null
dereference when no editor is current there. -/
def editors_hide_document (st : State) (target : Nat) : Option State :=
  let refresh := st.activeDocument = some target
  let st1 := hideDocLoop target st st.editors
  if refresh then
    match st1.current_editor with
    | some c =>
      some { st1 with activeDocument := st1.doc c, refreshed := true }
    | none => none
  else some st1

/-- Whether the mini preview is effectively on screen: the floating window
exists and is open. -/
def miniShown (st : State) : Bool :=
  st.mini_editor_window && st.miniVisible

/-- Whether the active-pane reference points at a registry entry of Mini
kind. -/
def pointsAtMini (st : State) : Bool :=
  match st.current_editor with
  | some c => decide (kindOf st c = some EKind.Mini)
  | none => false

/-- Id discipline: registry ids are distinct and below the allocation
counter (the freshness of C++ object identity). -/
def IdsOk (st : State) : Prop :=
  (registryIds st).Nodup ∧ ∀ i ∈ registryIds st, i < st.nextId

/-- A start state with one Normal pane: the registry holds exactly that
pane and its id respects the allocation counter. -/
def InitOnePane (st : State) : Prop :=
  ∃ e, st.editors = [(e, EKind.Normal)] ∧ e < st.nextId

/-- States reachable from a one-Normal-pane state by any sequence of split
and close operations. -/
inductive Reachable : State → Prop where
  | init : ∀ {st : State}, InitOnePane st → Reachable st
  | split : ∀ {st st' : State} {e : Nat} {a : Int},
      Reachable st → split_editor st e a = some st' → Reachable st'
  | close : ∀ {st st' : State} {e : Nat},
      Reachable st → close_editor st e = some st' → Reachable st'

/-- The show condition of the mini preview, as the specification phrases
it: the document has a loaded image and either the preview does not exist
yet and the pane is zoomed in, or it exists at a different zoom. -/
def ShowCondition (st : State) (e : Nat) : Prop :=
  ∃ d, st.doc e = some d ∧ st.docHasSprite d = true ∧
    ((st.mini_editor = none ∧ 0 < st.zoom e) ∨
      (∃ m, st.mini_editor = some m ∧ st.zoom m ≠ st.zoom e))

/-- A minimal one-pane state used to instantiate the theorems on concrete
input. -/
def st0 : State :=
  { editors := [(0, EKind.Normal)]
    current_editor := some 0
    tree := .view 0
    doc := fun _ => none
    zoom := fun _ => 0
    docHasSprite := fun _ => false
    nextId := 1
    topExtra := 1
    mini_editor := none
    mini_editor_window := false
    miniVisible := false
    mini_editor_enabled := false
    activeDocument := none
    openDocs := []
    refreshed := false
    tabsRebuilt := false
    alerts := 0 }

/-- A one-pane state nested deeply enough (ancestors above the editor box)
to trip the split-depth cap. -/
def stDeep : State :=
  { st0 with topExtra := 20 }

/-- A state with one pane showing document 10 while documents 10 and 20 are
open. -/
def stDocs : State :=
  { st0 with
    doc := fun i => if i = 0 then some 10 else none,
    openDocs := [10, 20] }

/-- A state with a Normal pane (current) and the registered Mini pane. -/
def stMini : State :=
  { st0 with
    editors := [(0, EKind.Normal), (1, EKind.Mini)],
    mini_editor := some 1,
    mini_editor_window := true,
    mini_editor_enabled := true,
    nextId := 2 }

/-- A zoomed-in one-pane state with the preview enabled and no mini window
yet, which makes the show condition hold. -/
def stZoom : State :=
  { st0 with
    doc := fun i => if i = 0 then some 10 else none,
    docHasSprite := fun _ => true,
    zoom := fun _ => 1,
    mini_editor_enabled := true,
    openDocs := [10] }

/-- A two-Normal-pane state whose views sit side by side under one
splitter. -/
def stTwo : State :=
  { st0 with
    editors := [(0, EKind.Normal), (1, EKind.Normal)],
    tree := .splitter 0 (.view 0) (.view 1),
    nextId := 2 }

/-- A two-pane state with both Normal panes showing document 10 while
documents 10, 20 and 30 are open: rebinding picks two different fallback
documents. -/
def stShared : State :=
  { st0 with
    editors := [(0, EKind.Normal), (1, EKind.Normal)],
    tree := .splitter 0 (.view 0) (.view 1),
    doc := fun i => if i = 0 then some 10 else if i = 1 then some 10 else none,
    nextId := 2,
    openDocs := [10, 20, 30] }

/-- The state produced by rebinding both panes of `stShared` away from
document 10. -/
def stSharedAfter : State :=
  hideDocLoop 10 stShared stShared.editors

/-! Helper lemmas about the widget tree. -/

theorem find_next_mem (w : Widget) : find_next_editor w ∈ treeViews w := by
  induction w with
  | view e => simp [find_next_editor, treeViews]
  | splitter a l r ihl ihr =>
    simp only [find_next_editor, treeViews, List.mem_append]
    exact Or.inl ihl

theorem spliceOut_perm {w : Widget} {e : Nat} {p : Widget × Widget}
    (h : spliceOut w e = some p) :
    (treeViews w).Perm (e :: treeViews p.1) := by
  induction w generalizing p with
  | view x => simp [spliceOut] at h
  | splitter a l r ihl ihr =>
    rw [spliceOut] at h
    by_cases hl : l = Widget.view e
    · rw [if_pos hl] at h
      cases h
      subst hl
      simp [treeViews]
    · rw [if_neg hl] at h
      by_cases hr : r = Widget.view e
      · rw [if_pos hr] at h
        cases h
        subst hr
        simp only [treeViews]
        exact List.perm_append_comm
      · rw [if_neg hr] at h
        cases hsl : spliceOut l e with
        | some q =>
          rw [hsl] at h
          cases h
          have hp := ihl hsl
          simpa [treeViews] using hp.append_right (treeViews r)
        | none =>
          rw [hsl] at h
          cases hsr : spliceOut r e with
          | some q =>
            rw [hsr] at h
            cases h
            have hp := (ihr hsr).append_left (treeViews l)
            simp only [treeViews]
            exact hp.trans List.perm_middle
          | none =>
            rw [hsr] at h
            cases h

theorem spliceOut_other_subset {w : Widget} {e : Nat} {p : Widget × Widget}
    (h : spliceOut w e = some p) :
    treeViews p.2 ⊆ treeViews p.1 := by
  induction w generalizing p with
  | view x => simp [spliceOut] at h
  | splitter a l r ihl ihr =>
    rw [spliceOut] at h
    by_cases hl : l = Widget.view e
    · rw [if_pos hl] at h
      cases h
      exact fun x hx => hx
    · rw [if_neg hl] at h
      by_cases hr : r = Widget.view e
      · rw [if_pos hr] at h
        cases h
        exact fun x hx => hx
      · rw [if_neg hr] at h
        cases hsl : spliceOut l e with
        | some q =>
          rw [hsl] at h
          cases h
          intro x hx
          simp only [treeViews, List.mem_append]
          exact Or.inl (ihl hsl hx)
        | none =>
          rw [hsl] at h
          cases hsr : spliceOut r e with
          | some q =>
            rw [hsr] at h
            cases h
            intro x hx
            simp only [treeViews, List.mem_append]
            exact Or.inr (ihr hsr hx)
          | none =>
            rw [hsr] at h
            cases h

theorem containsView_spliceOut {w : Widget} {e : Nat}
    (h : e ∈ treeViews w) :
    w = Widget.view e ∨ ∃ p, spliceOut w e = some p := by
  induction w with
  | view x =>
    simp only [treeViews, List.mem_singleton] at h
    exact Or.inl (by rw [h])
  | splitter a l r ihl ihr =>
    right
    rw [spliceOut]
    by_cases hl : l = Widget.view e
    · rw [if_pos hl]
      exact ⟨(r, r), rfl⟩
    · rw [if_neg hl]
      by_cases hr : r = Widget.view e
      · rw [if_pos hr]
        exact ⟨(l, l), rfl⟩
      · rw [if_neg hr]
        simp only [treeViews, List.mem_append] at h
        cases h with
        | inl hml =>
          rcases ihl hml with hv | ⟨q, hq⟩
          · exact absurd hv hl
          · rw [hq]
            exact ⟨_, rfl⟩
        | inr hmr =>
          cases hsl : spliceOut l e with
          | some q => exact ⟨_, rfl⟩
          | none =>
            rcases ihr hmr with hv | ⟨q, hq⟩
            · exact absurd hv hr
            · rw [hq]
              exact ⟨_, rfl⟩

/-! Helper lemmas about the registry. -/

theorem mem_normalIds_iff {st : State} {x : Nat} :
    x ∈ normalIds st ↔ (x, EKind.Normal) ∈ st.editors := by
  simp only [normalIds, normals, List.mem_map, List.mem_filter]
  constructor
  · rintro ⟨⟨a, k⟩, ⟨hm, hk⟩, rfl⟩
    simp only [decide_eq_true_eq] at hk
    subst hk
    exact hm
  · intro hm
    exact ⟨(x, EKind.Normal), ⟨hm, by simp⟩, rfl⟩

theorem find?_eq_of_nodup_mem {l : List (Nat × EKind)} {x : Nat} {k : EKind}
    (hn : (l.map Prod.fst).Nodup) (hm : (x, k) ∈ l) :
    l.find? (fun p => p.1 == x) = some (x, k) := by
  induction l with
  | nil => cases hm
  | cons a t ih =>
    rw [List.find?_cons]
    rcases List.mem_cons.mp hm with h | h
    · subst h
      simp
    · have hx : x ∈ t.map Prod.fst := List.mem_map.mpr ⟨(x, k), h, rfl⟩
      have hn' : (a.1 :: t.map Prod.fst).Nodup := by simpa using hn
      have ha : a.1 ≠ x := by
        intro hax
        exact (List.nodup_cons.mp hn').1 (hax ▸ hx)
      have hfalse : (a.1 == x) = false := beq_eq_false_iff_ne.mpr ha
      rw [hfalse]
      exact ih (List.nodup_cons.mp hn').2 h

theorem find?_filter_ne (l : List (Nat × EKind)) (e x : Nat) (h : x ≠ e) :
    (l.filter (fun q => decide (q.1 ≠ e))).find? (fun p => p.1 == x)
      = l.find? (fun p => p.1 == x) := by
  induction l with
  | nil => rfl
  | cons a t ih =>
    by_cases ha : a.1 = e
    · have hkeep : (decide (a.1 ≠ e)) = false := by simp [ha]
      rw [List.filter_cons, hkeep]
      simp only [Bool.false_eq_true, if_false]
      rw [List.find?_cons]
      have : (a.1 == x) = false := beq_eq_false_iff_ne.mpr (by rw [ha]; exact fun hx => h hx.symm)
      rw [this]
      exact ih
    · have hkeep : (decide (a.1 ≠ e)) = true := by simp [ha]
      rw [List.filter_cons, hkeep]
      simp only [if_true]
      rw [List.find?_cons, List.find?_cons]
      cases hax : (a.1 == x) with
      | true => rfl
      | false => exact ih

theorem find?_append_left {l : List (Nat × EKind)} {x : Nat}
    {a : Nat × EKind} (h : l.find? (fun p => p.1 == x) = some a)
    (l₂ : List (Nat × EKind)) :
    (l ++ l₂).find? (fun p => p.1 == x) = some a := by
  rw [List.find?_append, h]
  rfl

/-! Field-preservation lemmas for the mini-window controller. -/

theorem hide_mini_core (st : State) :
    (hide_mini_editor_window st).current_editor = st.current_editor ∧
    (hide_mini_editor_window st).editors = st.editors ∧
    (hide_mini_editor_window st).nextId = st.nextId ∧
    (hide_mini_editor_window st).tree = st.tree ∧
    (hide_mini_editor_window st).doc = st.doc ∧
    (hide_mini_editor_window st).zoom = st.zoom ∧
    (hide_mini_editor_window st).mini_editor_window = st.mini_editor_window ∧
    (hide_mini_editor_window st).mini_editor_enabled = st.mini_editor_enabled := by
  unfold hide_mini_editor_window mini_window_close
  split <;> exact ⟨rfl, rfl, rfl, rfl, rfl, rfl, rfl, rfl⟩

theorem hide_mini_shown (st : State) :
    miniShown (hide_mini_editor_window st) = false := by
  unfold miniShown hide_mini_editor_window mini_window_close
  split
  · simp
  · rename_i h
    simpa [Bool.and_eq_true] using h

theorem openMini_core (st : State) :
    (openMiniIfHidden st).current_editor = st.current_editor ∧
    (openMiniIfHidden st).editors = st.editors ∧
    (openMiniIfHidden st).nextId = st.nextId ∧
    (openMiniIfHidden st).tree = st.tree ∧
    (openMiniIfHidden st).doc = st.doc ∧
    (openMiniIfHidden st).zoom = st.zoom ∧
    (openMiniIfHidden st).mini_editor = st.mini_editor ∧
    (openMiniIfHidden st).mini_editor_window = st.mini_editor_window ∧
    (openMiniIfHidden st).mini_editor_enabled = st.mini_editor_enabled := by
  unfold openMiniIfHidden
  split <;> exact ⟨rfl, rfl, rfl, rfl, rfl, rfl, rfl, rfl, rfl⟩

theorem openMini_visible (st : State) :
    (openMiniIfHidden st).miniVisible = true := by
  unfold openMiniIfHidden
  split
  · assumption
  · rfl

theorem syncMini_core (st : State) (d : Nat) :
    (syncMiniDoc st d).current_editor = st.current_editor ∧
    (syncMiniDoc st d).editors = st.editors ∧
    (syncMiniDoc st d).nextId = st.nextId ∧
    (syncMiniDoc st d).tree = st.tree ∧
    (syncMiniDoc st d).mini_editor = st.mini_editor ∧
    (syncMiniDoc st d).mini_editor_window = st.mini_editor_window ∧
    (syncMiniDoc st d).miniVisible = st.miniVisible ∧
    (syncMiniDoc st d).mini_editor_enabled = st.mini_editor_enabled := by
  unfold syncMiniDoc
  split
  · split <;> exact ⟨rfl, rfl, rfl, rfl, rfl, rfl, rfl, rfl⟩
  · exact ⟨rfl, rfl, rfl, rfl, rfl, rfl, rfl, rfl⟩

theorem syncMini_doc_zoom_at (st : State) (d i : Nat)
    (h1 : st.mini_editor ≠ some i) :
    (syncMiniDoc st d).doc i = st.doc i ∧
    (syncMiniDoc st d).zoom i = st.zoom i := by
  unfold syncMiniDoc
  split
  · rename_i m hm
    have him : i ≠ m := by
      intro h
      exact h1 (h ▸ hm.symm ▸ rfl)
    split
    · exact ⟨rfl, rfl⟩
    · constructor <;> simp [him]
  · exact ⟨rfl, rfl⟩

theorem showMini_core (st : State) (d : Nat) :
    (showMini st d).current_editor = st.current_editor ∧
    (showMini st d).tree = st.tree ∧
    (showMini st d).mini_editor_enabled = st.mini_editor_enabled := by
  unfold showMini
  split <;>
    refine ⟨?_, ?_, ?_⟩ <;>
      (first
        | rw [(syncMini_core _ _).1, (openMini_core _).1]
        | rw [(syncMini_core _ _).2.2.2.1, (openMini_core _).2.2.2.1]
        | rw [(syncMini_core _ _).2.2.2.2.2.2.2,
            (openMini_core _).2.2.2.2.2.2.2.2]) <;>
      rfl

theorem showMini_shape (st : State) (d : Nat) :
    ((showMini st d).editors = st.editors ∧ (showMini st d).nextId = st.nextId) ∨
    ((showMini st d).editors = st.editors ++ [(st.nextId, EKind.Mini)] ∧
      (showMini st d).nextId = st.nextId + 1) := by
  unfold showMini
  split
  · exact Or.inl ⟨by rw [(syncMini_core _ _).2.1, (openMini_core _).2.1],
      by rw [(syncMini_core _ _).2.2.1, (openMini_core _).2.2.1]⟩
  · refine Or.inr ⟨?_, ?_⟩
    · rw [(syncMini_core _ _).2.1, (openMini_core _).2.1]
      rfl
    · rw [(syncMini_core _ _).2.2.1, (openMini_core _).2.2.1]
      rfl

theorem showMini_shown (st : State) (d : Nat) :
    miniShown (showMini st d) = true := by
  unfold miniShown showMini
  rw [Bool.and_eq_true]
  constructor
  · split
    · rename_i hw
      rw [(syncMini_core _ _).2.2.2.2.2.1, (openMini_core _).2.2.2.2.2.2.2.1]
      exact hw
    · rw [(syncMini_core _ _).2.2.2.2.2.1, (openMini_core _).2.2.2.2.2.2.2.1]
      rfl
  · split <;>
      rw [(syncMini_core _ _).2.2.2.2.2.2.1, openMini_visible]

theorem showMini_doc_zoom_at (st : State) (d i : Nat)
    (h1 : st.mini_editor ≠ some i) (h2 : i ≠ st.nextId) :
    (showMini st d).doc i = st.doc i ∧ (showMini st d).zoom i = st.zoom i := by
  unfold showMini
  split
  · have hm : (openMiniIfHidden st).mini_editor ≠ some i := by
      rw [(openMini_core st).2.2.2.2.2.2.1]
      exact h1
    have hd := syncMini_doc_zoom_at (openMiniIfHidden st) d i hm
    rw [hd.1, hd.2, (openMini_core st).2.2.2.2.1, (openMini_core st).2.2.2.2.2.1]
    exact ⟨rfl, rfl⟩
  · have hm : (openMiniIfHidden (create_mini_editor_window st)).mini_editor
        ≠ some i := by
      rw [(openMini_core _).2.2.2.2.2.2.1]
      show ¬ some st.nextId = some i
      intro h
      exact h2 (Option.some.inj h).symm
    have hd :=
      syncMini_doc_zoom_at (openMiniIfHidden (create_mini_editor_window st)) d i hm
    rw [hd.1, hd.2, (openMini_core _).2.2.2.2.1, (openMini_core _).2.2.2.2.2.1]
    constructor
    · show (if i = st.nextId then none else st.doc i) = st.doc i
      rw [if_neg h2]
    · show (if i = st.nextId then 0 else st.zoom i) = st.zoom i
      rw [if_neg h2]

theorem update_mini_core (st : State) (e? : Option Nat) :
    (update_mini_editor_window st e?).current_editor = st.current_editor ∧
    (update_mini_editor_window st e?).tree = st.tree ∧
    (update_mini_editor_window st e?).mini_editor_enabled
      = st.mini_editor_enabled := by
  unfold update_mini_editor_window
  rcases e? with _ | e
  · exact ⟨(hide_mini_core st).1, (hide_mini_core st).2.2.2.1,
      (hide_mini_core st).2.2.2.2.2.2.2⟩
  · dsimp only
    split
    · exact ⟨(hide_mini_core st).1, (hide_mini_core st).2.2.2.1,
        (hide_mini_core st).2.2.2.2.2.2.2⟩
    · split
      · split
        · exact ⟨(showMini_core _ _).1, (showMini_core _ _).2.1,
            (showMini_core _ _).2.2⟩
        · exact ⟨(hide_mini_core st).1, (hide_mini_core st).2.2.2.1,
            (hide_mini_core st).2.2.2.2.2.2.2⟩
      · exact ⟨(hide_mini_core st).1, (hide_mini_core st).2.2.2.1,
          (hide_mini_core st).2.2.2.2.2.2.2⟩

theorem update_mini_shape (st : State) (e? : Option Nat) :
    ((update_mini_editor_window st e?).editors = st.editors ∧
      (update_mini_editor_window st e?).nextId = st.nextId) ∨
    ((update_mini_editor_window st e?).editors
        = st.editors ++ [(st.nextId, EKind.Mini)] ∧
      (update_mini_editor_window st e?).nextId = st.nextId + 1) := by
  unfold update_mini_editor_window
  rcases e? with _ | e
  · exact Or.inl ⟨(hide_mini_core st).2.1, (hide_mini_core st).2.2.1⟩
  · dsimp only
    split
    · exact Or.inl ⟨(hide_mini_core st).2.1, (hide_mini_core st).2.2.1⟩
    · split
      · split
        · exact showMini_shape _ _
        · exact Or.inl ⟨(hide_mini_core st).2.1, (hide_mini_core st).2.2.1⟩
      · exact Or.inl ⟨(hide_mini_core st).2.1, (hide_mini_core st).2.2.1⟩

theorem update_mini_doc_zoom_at (st : State) (e? : Option Nat) (i : Nat)
    (h1 : st.mini_editor ≠ some i) (h2 : i ≠ st.nextId) :
    (update_mini_editor_window st e?).doc i = st.doc i ∧
    (update_mini_editor_window st e?).zoom i = st.zoom i := by
  unfold update_mini_editor_window
  rcases e? with _ | e
  · rw [(hide_mini_core st).2.2.2.2.1, (hide_mini_core st).2.2.2.2.2.1]
    exact ⟨rfl, rfl⟩
  · dsimp only
    split
    · rw [(hide_mini_core st).2.2.2.2.1, (hide_mini_core st).2.2.2.2.2.1]
      exact ⟨rfl, rfl⟩
    · split
      · split
        · exact showMini_doc_zoom_at st _ i h1 h2
        · rw [(hide_mini_core st).2.2.2.2.1, (hide_mini_core st).2.2.2.2.2.1]
          exact ⟨rfl, rfl⟩
      · rw [(hide_mini_core st).2.2.2.2.1, (hide_mini_core st).2.2.2.2.2.1]
        exact ⟨rfl, rfl⟩

/-! Branch lemmas for `set_current_editor`. -/

theorem set_current_skip_same {st : State} {e : Nat}
    (h : st.current_editor = some e) : set_current_editor st e = st := by
  unfold set_current_editor
  rw [if_pos h]

theorem set_current_refuse {st : State} {e : Nat}
    (h1 : st.current_editor ≠ some e) (h2 : kindOf st e = some EKind.Mini) :
    set_current_editor st e = st := by
  unfold set_current_editor
  rw [if_neg h1]
  unfold kindOf at h2
  cases hf : st.editors.find? (fun p => p.1 == e) with
  | none => rw [hf] at h2; cases h2
  | some p =>
    rw [hf] at h2
    have hp : p.2 = EKind.Mini := by
      simpa using h2
    dsimp only
    rw [hp]
    rfl

theorem set_current_go {st : State} {e : Nat}
    (h1 : st.current_editor ≠ some e) (h2 : kindOf st e ≠ some EKind.Mini) :
    set_current_editor st e =
      update_mini_editor_window
        { st with
          current_editor := some e,
          activeDocument := st.doc e,
          refreshed := true,
          tabsRebuilt := true } (some e) := by
  unfold set_current_editor
  rw [if_neg h1]
  cases hf : st.editors.find? (fun p => p.1 == e) with
  | none =>
    dsimp only
    rfl
  | some p =>
    have hp : p.2 = EKind.Normal := by
      cases hk : p.2 with
      | Normal => rfl
      | Mini =>
        exfalso
        apply h2
        unfold kindOf
        rw [hf]
        simp [hk]
    dsimp only
    rw [hp]
    rfl

theorem set_current_current_of_go {st : State} {e : Nat}
    (h1 : st.current_editor ≠ some e) (h2 : kindOf st e ≠ some EKind.Mini) :
    (set_current_editor st e).current_editor = some e := by
  rw [set_current_go h1 h2, (update_mini_core _ _).1]

theorem set_current_tree (st : State) (e : Nat) :
    (set_current_editor st e).tree = st.tree := by
  unfold set_current_editor
  split
  · rfl
  · split
    · rfl
    · exact (update_mini_core _ _).2.1

theorem set_current_shape (st : State) (e : Nat) :
    ((set_current_editor st e).editors = st.editors ∧
      (set_current_editor st e).nextId = st.nextId) ∨
    ((set_current_editor st e).editors = st.editors ++ [(st.nextId, EKind.Mini)] ∧
      (set_current_editor st e).nextId = st.nextId + 1) := by
  unfold set_current_editor
  split
  · exact Or.inl ⟨rfl, rfl⟩
  · split
    · exact Or.inl ⟨rfl, rfl⟩
    · exact update_mini_shape _ _

/-! Registry-count lemmas. -/

theorem filter_normal_append_mini (l : List (Nat × EKind)) (n : Nat) :
    (l ++ [(n, EKind.Mini)]).filter (fun p => decide (p.2 = EKind.Normal))
      = l.filter (fun p => decide (p.2 = EKind.Normal)) := by
  rw [List.filter_append]
  simp

theorem normalCount_shape {st st' : State}
    (h : st'.editors = st.editors ∨
      st'.editors = st.editors ++ [(st.nextId, EKind.Mini)]) :
    normalCount st' = normalCount st := by
  unfold normalCount normals
  cases h with
  | inl h => rw [h]
  | inr h => rw [h, filter_normal_append_mini]

theorem IdsOk_shape {st st' : State} (k : EKind) (hok : IdsOk st)
    (h : (st'.editors = st.editors ∧ st'.nextId = st.nextId) ∨
      (st'.editors = st.editors ++ [(st.nextId, k)] ∧
        st'.nextId = st.nextId + 1)) :
    IdsOk st' := by
  obtain ⟨hnd, hlt⟩ := hok
  cases h with
  | inl h =>
    exact ⟨by rw [registryIds, h.1]; exact hnd,
      by rw [registryIds, h.1, h.2]; exact hlt⟩
  | inr h =>
    constructor
    · rw [registryIds, h.1, List.map_append]
      rw [List.nodup_append]
      refine ⟨hnd, by simp, ?_⟩
      intro a ha hb
      simp only [List.map_cons, List.map_nil, List.mem_singleton] at hb
      subst hb
      exact absurd (hlt _ ha) (lt_irrefl _)
    · intro i hi
      rw [registryIds, h.1, List.map_append] at hi
      rw [h.2]
      rcases List.mem_append.mp hi with h' | h'
      · exact Nat.lt_succ_of_lt (hlt i h')
      · simp only [List.map_cons, List.map_nil, List.mem_singleton] at h'
        subst h'
        exact Nat.lt_succ_self _

theorem set_current_IdsOk {st : State} {e : Nat} (hok : IdsOk st) :
    IdsOk (set_current_editor st e) :=
  IdsOk_shape EKind.Mini hok (set_current_shape st e)

theorem set_current_normalCount (st : State) (e : Nat) :
    normalCount (set_current_editor st e) = normalCount st := by
  refine normalCount_shape ?_
  rcases set_current_shape st e with h | h
  · exact Or.inl h.1
  · exact Or.inr h.1

/-! Counting lemmas used for the "at least one Normal pane" invariant. -/

theorem length_filter_normal_filter_ne {l : List (Nat × EKind)} (e : Nat)
    (hn : (l.map Prod.fst).Nodup) :
    (l.filter (fun p => decide (p.2 = EKind.Normal))).length ≤
      ((l.filter (fun q => decide (q.1 ≠ e))).filter
        (fun p => decide (p.2 = EKind.Normal))).length + 1 := by
  induction l with
  | nil => simp
  | cons a t ih =>
    have hn' : (a.1 :: t.map Prod.fst).Nodup := by simpa using hn
    have hna := (List.nodup_cons.mp hn').1
    have hnt := (List.nodup_cons.mp hn').2
    have IH := ih hnt
    by_cases hae : a.1 = e
    · have hfe : (decide (a.1 ≠ e)) = false := by simp [hae]
      have ht : t.filter (fun q => decide (q.1 ≠ e)) = t := by
        rw [List.filter_eq_self]
        intro q hq
        simp only [decide_eq_true_eq]
        intro hqe
        exact hna (List.mem_map.mpr ⟨q, hq, by rw [hqe, hae]⟩)
      have hrhs : (a :: t).filter (fun q => decide (q.1 ≠ e)) = t := by
        rw [List.filter_cons, hfe]
        simp only [Bool.false_eq_true, if_false]
        exact ht
      rw [hrhs, List.filter_cons]
      cases hpa : decide (a.2 = EKind.Normal) <;> simp [hpa]
    · have hfe : (decide (a.1 ≠ e)) = true := by simp [hae]
      have hrhs : (a :: t).filter (fun q => decide (q.1 ≠ e))
          = a :: t.filter (fun q => decide (q.1 ≠ e)) := by
        rw [List.filter_cons, hfe]
        simp
      rw [hrhs, List.filter_cons, List.filter_cons]
      cases hpa : decide (a.2 = EKind.Normal) <;>
        simp only [hpa, Bool.false_eq_true, if_false, if_true, List.length_cons]
      · exact IH
      · exact Nat.succ_le_succ IH

theorem normalCount_filter_ne {st st' : State} {e : Nat}
    (hok : IdsOk st) (h2 : 2 ≤ normalCount st)
    (he : st'.editors = st.editors.filter (fun q => decide (q.1 ≠ e))) :
    1 ≤ normalCount st' := by
  have hkey := length_filter_normal_filter_ne e hok.1
  unfold normalCount normals at h2 ⊢
  rw [he]
  omega

theorem IdsOk_filter_ne {st st' : State} {e : Nat} (hok : IdsOk st)
    (he : st'.editors = st.editors.filter (fun q => decide (q.1 ≠ e)))
    (hn : st'.nextId = st.nextId) :
    IdsOk st' := by
  obtain ⟨hnd, hlt⟩ := hok
  constructor
  · rw [registryIds, he]
    exact hnd.sublist ((List.filter_sublist st.editors).map Prod.fst)
  · intro i hi
    rw [registryIds, he] at hi
    rcases List.mem_map.mp hi with ⟨q, hq, rfl⟩
    rw [hn]
    exact hlt _ (List.mem_map.mpr ⟨q, List.mem_of_mem_filter hq, rfl⟩)

/-! Preservation of the invariant by the split and close operations. -/

theorem split_Inv {st st' : State} {e : Nat} {a : Int}
    (h : split_editor st e a = some st')
    (hcnt : 1 ≤ normalCount st) (hok : IdsOk st) :
    1 ≤ normalCount st' ∧ IdsOk st' := by
  unfold split_editor at h
  cases hc : count_parents st e with
  | none => rw [hc] at h; cases h
  | some cp =>
    rw [hc] at h
    dsimp only at h
    by_cases hcp : cp > 10
    · rw [if_pos hcp] at h
      cases h
      exact ⟨hcnt, hok⟩
    · rw [if_neg hcp] at h
      cases h
      constructor
      · unfold normalCount normals
        show 1 ≤ ((st.editors ++ [(st.nextId, EKind.Normal)]).filter
          (fun p => decide (p.2 = EKind.Normal))).length
        rw [List.filter_append]
        simp
      · refine IdsOk_shape EKind.Normal hok (Or.inr ⟨?_, ?_⟩) <;> rfl

theorem close_Inv {st st' : State} {e : Nat}
    (h : close_editor st e = some st')
    (hcnt : 1 ≤ normalCount st) (hok : IdsOk st) :
    1 ≤ normalCount st' ∧ IdsOk st' := by
  unfold close_editor at h
  by_cases h1 : normalCount st = 1
  · rw [if_pos h1] at h
    cases h
    exact ⟨hcnt, hok⟩
  · rw [if_neg h1] at h
    cases hs : spliceOut st.tree e with
    | none => rw [hs] at h; cases h
    | some p =>
      rw [hs] at h
      dsimp only at h
      have h2 : 2 ≤ normalCount st := by omega
      by_cases hcur : st.current_editor = some e
      · rw [if_pos hcur] at h
        dsimp only at h
        cases h
        have hc1 := @normalCount_filter_ne st
          { st with
            tree := p.1, current_editor := none,
            editors := st.editors.filter (fun q => decide (q.1 ≠ e)) }
          e hok h2 rfl
        have ho1 := @IdsOk_filter_ne st
          { st with
            tree := p.1, current_editor := none,
            editors := st.editors.filter (fun q => decide (q.1 ≠ e)) }
          e hok rfl rfl
        constructor
        · rw [set_current_normalCount]
          exact hc1
        · exact set_current_IdsOk ho1
      · rw [if_neg hcur] at h
        cases hcc : st.current_editor with
        | none =>
          rw [hcc] at h
          dsimp only at h
          cases h
          have hc1 := @normalCount_filter_ne st
            { st with
              tree := p.1, current_editor := none,
              editors := st.editors.filter (fun q => decide (q.1 ≠ e)) }
            e hok h2 rfl
          have ho1 := @IdsOk_filter_ne st
            { st with
              tree := p.1, current_editor := none,
              editors := st.editors.filter (fun q => decide (q.1 ≠ e)) }
            e hok rfl rfl
          constructor
          · rw [set_current_normalCount]
            exact hc1
          · exact set_current_IdsOk ho1
        | some c =>
          rw [hcc] at h
          dsimp only at h
          cases h
          constructor
          · exact normalCount_filter_ne hok h2 rfl
          · exact IdsOk_filter_ne hok rfl rfl

theorem reachable_Inv {st : State} (h : Reachable st) :
    1 ≤ normalCount st ∧ IdsOk st := by
  induction h with
  | init hinit =>
    obtain ⟨e, he, hlt⟩ := hinit
    constructor
    · unfold normalCount normals
      rw [he]
      simp
    · constructor
      · rw [registryIds, he]
        simp
      · intro i hi
        rw [registryIds, he] at hi
        simp only [List.map_cons, List.map_nil, List.mem_singleton] at hi
        subst hi
        exact hlt
  | split hr hstep ih => exact split_Inv hstep ih.1 ih.2
  | close hr hstep ih => exact close_Inv hstep ih.1 ih.2

/-! Helper lemmas for the document-rebinding loop. -/

theorem shown_of_mem {st : State} {i t : Nat} {k : EKind}
    (hm : (i, k) ∈ st.editors) (hd : st.doc i = some t) :
    is_document_in_some_editor st t = true := by
  unfold is_document_in_some_editor
  rw [List.any_eq_true]
  exact ⟨(i, k), hm, by simp [hd]⟩

theorem fallback_ne_shown {st : State} {t : Nat}
    (h : is_document_in_some_editor st t = true) :
    get_more_reliable_document st ≠ some t := by
  unfold get_more_reliable_document
  intro hf
  have hp := List.find?_some hf
  rw [h] at hp
  cases hp

theorem hideDocLoop_frame (target : Nat) (l : List (Nat × EKind)) (st : State) :
    (hideDocLoop target st l).editors = st.editors ∧
    (hideDocLoop target st l).current_editor = st.current_editor ∧
    (hideDocLoop target st l).activeDocument = st.activeDocument ∧
    (hideDocLoop target st l).openDocs = st.openDocs := by
  induction l generalizing st with
  | nil => exact ⟨rfl, rfl, rfl, rfl⟩
  | cons a rest ih =>
    unfold hideDocLoop
    split
    · exact ih _
    · exact ih _

theorem hideDocLoop_untouched (target : Nat) (l : List (Nat × EKind))
    (st : State) (i : Nat) (h : st.doc i ≠ some target) :
    (hideDocLoop target st l).doc i = st.doc i := by
  induction l generalizing st with
  | nil => rfl
  | cons a rest ih =>
    unfold hideDocLoop
    split
    · rename_i ha
      have hia : i ≠ a.1 := by
        intro hi
        rw [hi] at h
        exact h ha
      have step :
          ({ st with
            doc := fun j =>
              if j = a.1 then get_more_reliable_document st else st.doc j
            } : State).doc i = st.doc i := by
        show (if i = a.1 then get_more_reliable_document st else st.doc i)
          = st.doc i
        rw [if_neg hia]
      rw [ih _ (by rw [step]; exact h), step]
    · exact ih _ h

theorem hideDocLoop_no_target (target : Nat) (l : List (Nat × EKind))
    (st : State) (hsub : ∀ p ∈ l, p ∈ st.editors) (i : Nat)
    (h : (hideDocLoop target st l).doc i = some target) :
    st.doc i = some target ∧ ∀ k, (i, k) ∉ l := by
  induction l generalizing st with
  | nil => exact ⟨h, fun k => List.not_mem_nil _⟩
  | cons a rest ih =>
    rw [hideDocLoop] at h
    by_cases ha : st.doc a.1 = some target
    · rw [if_pos ha] at h
      have hfne : get_more_reliable_document st ≠ some target :=
        fallback_ne_shown (shown_of_mem (hsub a (List.mem_cons_self a rest)) ha)
      have hsub2 : ∀ p ∈ rest,
          p ∈ ({ st with
            doc := fun j =>
              if j = a.1 then get_more_reliable_document st else st.doc j
            } : State).editors := by
        intro p hp
        exact hsub p (List.mem_cons_of_mem a hp)
      obtain ⟨hd2, hnr⟩ := ih _ hsub2 h
      by_cases hia : i = a.1
      · exfalso
        rw [hia] at hd2
        simp only [if_pos rfl] at hd2
        exact hfne hd2
      · simp only [hia, if_false] at hd2
        refine ⟨hd2, fun k hk => ?_⟩
        rcases List.mem_cons.mp hk with hk | hk
        · exact hia (congrArg Prod.fst hk)
        · exact hnr k hk
    · rw [if_neg ha] at h
      have hsub2 : ∀ p ∈ rest, p ∈ st.editors := fun p hp =>
        hsub p (List.mem_cons_of_mem a hp)
      obtain ⟨hd2, hnr⟩ := ih _ hsub2 h
      refine ⟨hd2, fun k hk => ?_⟩
      rcases List.mem_cons.mp hk with hk | hk
      · have : i = a.1 := congrArg Prod.fst hk
        rw [this] at hd2
        exact ha hd2
      · exact hnr k hk

theorem hideDocLoop_first (target : Nat) (pre : List (Nat × EKind))
    (p : Nat × EKind) (suf : List (Nat × EKind)) (st : State)
    (hp : p ∈ st.editors) (hpre : ∀ q ∈ pre, st.doc q.1 ≠ some target)
    (hd : st.doc p.1 = some target) :
    (hideDocLoop target st (pre ++ p :: suf)).doc p.1
      = get_more_reliable_document st := by
  induction pre generalizing st with
  | nil =>
    rw [List.nil_append, hideDocLoop, if_pos hd]
    have hfne : get_more_reliable_document st ≠ some target :=
      fallback_ne_shown (shown_of_mem hp hd)
    have step :
        ({ st with
          doc := fun j =>
            if j = p.1 then get_more_reliable_document st else st.doc j
          } : State).doc p.1 = get_more_reliable_document st := by
      show (if p.1 = p.1 then get_more_reliable_document st else st.doc p.1)
        = get_more_reliable_document st
      rw [if_pos rfl]
    rw [hideDocLoop_untouched _ _ _ _ (by rw [step]; exact hfne), step]
  | cons a pre' ih =>
    rw [List.cons_append, hideDocLoop,
      if_neg (hpre a (List.mem_cons_self a pre'))]
    exact ih st hp (fun q hq => hpre q (List.mem_cons_of_mem a hq)) hd

/-! More registry and lookup helpers. -/

theorem find?_filter_key {l : List (Nat × EKind)} {x : Nat}
    {keep : Nat × EKind → Bool} (hkeep : ∀ p, p.1 = x → keep p = true) :
    (l.filter keep).find? (fun p => p.1 == x)
      = l.find? (fun p => p.1 == x) := by
  induction l with
  | nil => rfl
  | cons a t ih =>
    by_cases hax : a.1 = x
    · rw [List.filter_cons, hkeep a hax]
      simp only [if_true]
      rw [List.find?_cons, List.find?_cons]
      have : (a.1 == x) = true := beq_iff_eq.mpr hax
      rw [this]
    · have hfalse : (a.1 == x) = false := beq_eq_false_iff_ne.mpr hax
      rw [List.filter_cons]
      cases hk : keep a
      · simp only [Bool.false_eq_true, if_false]
        rw [ih, List.find?_cons, hfalse]
      · simp only [if_true]
        rw [List.find?_cons, hfalse, ih, List.find?_cons, hfalse]

theorem kindOf_append_entry {l : List (Nat × EKind)} {x n : Nat} {k : EKind}
    (hne : n ≠ x) :
    (l ++ [(n, k)]).find? (fun p => p.1 == x)
      = l.find? (fun p => p.1 == x) := by
  rw [List.find?_append]
  cases hf : l.find? (fun p => p.1 == x) with
  | some p => rfl
  | none =>
    show Option.or none _ = none
    rw [Option.none_or]
    rw [List.find?_cons]
    have : ((n, k).1 == x) = false := beq_eq_false_iff_ne.mpr hne
    rw [this]
    rfl

theorem nodup_subset_singleton {l : List Nat} {e : Nat}
    (hn : l.Nodup) (hs : ∀ i ∈ l, i = e) : l.length ≤ 1 := by
  match l with
  | [] => simp
  | [x] => simp
  | x :: y :: t =>
    exfalso
    have hx := hs x (by simp)
    have hy := hs y (by simp)
    have hxy : x ∉ y :: t := (List.nodup_cons.mp hn).1
    exact hxy (by rw [hx, ← hy]; exact List.mem_cons_self y t)

theorem find?_first_decomp {p : Nat → Bool} {l : List Nat} {d : Nat}
    (h : l.find? p = some d) :
    ∃ pre suf, l = pre ++ d :: suf ∧ p d = true ∧ ∀ x ∈ pre, p x = false := by
  induction l with
  | nil => cases h
  | cons a t ih =>
    rw [List.find?_cons] at h
    cases hpa : p a with
    | true =>
      rw [hpa] at h
      cases h
      exact ⟨[], t, rfl, hpa, by simp⟩
    | false =>
      rw [hpa] at h
      obtain ⟨pre, suf, rfl, hd, hpre⟩ := ih h
      refine ⟨a :: pre, suf, rfl, hd, ?_⟩
      intro x hx
      rcases List.mem_cons.mp hx with hx | hx
      · rw [hx]
        exact hpa
      · exact hpre x hx

theorem hide_mini_mini_editor (st : State) :
    (hide_mini_editor_window st).mini_editor = st.mini_editor := by
  unfold hide_mini_editor_window mini_window_close
  split <;> rfl

theorem set_current_doc_zoom_at (st : State) (e i : Nat)
    (h1 : st.mini_editor ≠ some i) (h2 : i ≠ st.nextId) :
    (set_current_editor st e).doc i = st.doc i ∧
    (set_current_editor st e).zoom i = st.zoom i := by
  unfold set_current_editor
  split
  · exact ⟨rfl, rfl⟩
  · split
    · exact ⟨rfl, rfl⟩
    · exact update_mini_doc_zoom_at _ _ i h1 h2

theorem miniShowCond_iff (st : State) (e : Nat) :
    miniShowCond st e = true ↔ ShowCondition st e := by
  unfold miniShowCond ShowCondition
  cases hd : st.doc e with
  | none => simp
  | some d =>
    cases hm : st.mini_editor with
    | none => simp
    | some m => simp

/-! Claim theorems. -/

/-- C1: for every sequence of split and close operations starting from a
state with one Normal pane the registry retains at least one Normal entry,
and `close_editor` is a complete no-op — registry, widget tree and active
pane unchanged — whenever exactly one Normal entry exists, regardless of
how many Mini entries exist. -/
theorem C1_registry_keeps_normal :
    (∀ st : State, Reachable st → 1 ≤ normalCount st) ∧
    (∀ (st : State) (e : Nat),
      normalCount st = 1 → close_editor st e = some st) := by
  constructor
  · intro st h
    exact (reachable_Inv h).1
  · intro st e h
    unfold close_editor
    rw [if_pos h]

/-- Witness for C1 at the one-pane start state `st0` and, for the no-op
half, at `stMini`, which holds one Normal entry and one Mini entry. -/
theorem C1_registry_keeps_normal_witness :
    1 ≤ normalCount st0 ∧ close_editor stMini 0 = some stMini :=
  ⟨C1_registry_keeps_normal.1 st0 (Reachable.init ⟨0, rfl, Nat.zero_lt_one⟩),
   C1_registry_keeps_normal.2 stMini 0 (by decide)⟩

/-- C2: when the editor's ancestor-widget count exceeds the 10-level cap,
`split_editor` shows an alert and changes nothing else; within the cap the
split proceeds, appending a fresh Normal pane with the same document and
zoom and wrapping the old view in a new splitter at its tree position. -/
theorem C2_split_depth_guard (st : State) (e : Nat) (a : Int) (cp : Nat)
    (h : count_parents st e = some cp) :
    (10 < cp →
      split_editor st e a = some { st with alerts := st.alerts + 1 }) ∧
    (cp ≤ 10 → ∃ st', split_editor st e a = some st' ∧
      st'.editors = st.editors ++ [(st.nextId, EKind.Normal)] ∧
      st'.tree = splitAt st.tree e
        (Widget.splitter a (Widget.view e) (Widget.view st.nextId)) ∧
      st'.doc st.nextId = st.doc e ∧
      st'.zoom st.nextId = st.zoom e ∧
      st'.current_editor = st.current_editor ∧
      st'.alerts = st.alerts) := by
  constructor
  · intro hcp
    unfold split_editor
    rw [h]
    dsimp only
    rw [if_pos hcp]
  · intro hcp
    unfold split_editor
    rw [h]
    dsimp only
    rw [if_neg (by omega : ¬ cp > 10)]
    refine ⟨_, rfl, rfl, rfl, ?_, ?_, rfl, rfl⟩
    · show (if st.nextId = st.nextId then st.doc e else st.doc st.nextId)
        = st.doc e
      rw [if_pos rfl]
    · show (if st.nextId = st.nextId then st.zoom e else st.zoom st.nextId)
        = st.zoom e
      rw [if_pos rfl]

/-- Witness for C2: `stDeep` trips the cap (23 ancestors) and aborts with
only the alert; `st0` is within the cap (4 ancestors) and the split
appends pane 1. -/
theorem C2_split_depth_guard_witness :
    split_editor stDeep 0 0 = some { stDeep with alerts := stDeep.alerts + 1 } ∧
    (∃ st', split_editor st0 0 0 = some st' ∧
      st'.editors = st0.editors ++ [(st0.nextId, EKind.Normal)] ∧
      st'.tree = splitAt st0.tree 0
        (Widget.splitter 0 (Widget.view 0) (Widget.view st0.nextId)) ∧
      st'.doc st0.nextId = st0.doc 0 ∧
      st'.zoom st0.nextId = st0.zoom 0 ∧
      st'.current_editor = st0.current_editor ∧
      st'.alerts = st0.alerts) :=
  ⟨(C2_split_depth_guard stDeep 0 0 23 rfl).1 (by decide),
   (C2_split_depth_guard st0 0 0 4 rfl).2 (by decide)⟩

/-- C3: the fallback document is `none` exactly when every open document is
referenced by some registered pane (Normal or Mini); otherwise it is the
first unreferenced document in the open-document list's native order. -/
theorem C3_fallback_document_spec (st : State) :
    (get_more_reliable_document st = none ↔
      ∀ d ∈ st.openDocs, is_document_in_some_editor st d = true) ∧
    (∀ d, get_more_reliable_document st = some d →
      is_document_in_some_editor st d = false ∧
      ∃ pre suf, st.openDocs = pre ++ d :: suf ∧
        ∀ x ∈ pre, is_document_in_some_editor st x = true) := by
  constructor
  · unfold get_more_reliable_document
    rw [List.find?_eq_none]
    constructor
    · intro h d hd
      have := h d hd
      simpa using this
    · intro h d hd
      simp [h d hd]
  · intro d h
    unfold get_more_reliable_document at h
    have hp := List.find?_some h
    obtain ⟨pre, suf, hl, hd, hpre⟩ := find?_first_decomp h
    refine ⟨by simpa using hp, pre, suf, hl, ?_⟩
    intro x hx
    have := hpre x hx
    simpa using this

/-- Witness for C3 at `stDocs`: document 10 is shown, so the fallback is
document 20, the first unshown one. -/
theorem C3_fallback_document_spec_witness :
    is_document_in_some_editor stDocs 20 = false ∧
    ∃ pre suf, stDocs.openDocs = pre ++ 20 :: suf ∧
      ∀ x ∈ pre, is_document_in_some_editor stDocs x = true :=
  (C3_fallback_document_spec stDocs).2 20 rfl

/-- C5: a mini-preview resync ends hidden when the preview is disabled or
no editor is given; it ends shown when the editor's document has a loaded
image and either the preview does not exist yet with the editor zoomed in,
or it exists at a different zoom; in every other case it ends hidden with
the floating window closed but not destroyed. -/
theorem C5_mini_preview_visibility (st : State) (e? : Option Nat) :
    ((st.mini_editor_enabled = false ∨ e? = none) →
      miniShown (update_mini_editor_window st e?) = false) ∧
    (∀ e, e? = some e → st.mini_editor_enabled = true →
      ShowCondition st e →
      miniShown (update_mini_editor_window st e?) = true) ∧
    (∀ e, e? = some e → st.mini_editor_enabled = true →
      ¬ ShowCondition st e →
      miniShown (update_mini_editor_window st e?) = false ∧
      (update_mini_editor_window st e?).mini_editor_window
        = st.mini_editor_window ∧
      (update_mini_editor_window st e?).mini_editor = st.mini_editor) := by
  refine ⟨?_, ?_, ?_⟩
  · intro h
    rcases e? with _ | e
    · unfold update_mini_editor_window
      exact hide_mini_shown st
    · rcases h with he | hn
      · unfold update_mini_editor_window
        dsimp only
        rw [if_pos (by rw [he]; rfl : (!st.mini_editor_enabled) = true)]
        exact hide_mini_shown st
      · cases hn
  · intro e he hen hcond
    subst he
    unfold update_mini_editor_window
    dsimp only
    rw [if_neg (by rw [hen]; simp : ¬ (!st.mini_editor_enabled) = true)]
    obtain ⟨d, hd, hspr, hor⟩ := hcond
    rw [hd]
    dsimp only
    rw [if_pos ((miniShowCond_iff st e).mpr ⟨d, hd, hspr, hor⟩)]
    exact showMini_shown st d
  · intro e he hen hcond
    subst he
    have hfalse : miniShowCond st e = false := by
      cases hmc : miniShowCond st e
      · rfl
      · exact absurd ((miniShowCond_iff st e).mp hmc) hcond
    unfold update_mini_editor_window
    dsimp only
    rw [if_neg (by rw [hen]; simp : ¬ (!st.mini_editor_enabled) = true)]
    cases hd : st.doc e with
    | none =>
      exact ⟨hide_mini_shown st, (hide_mini_core st).2.2.2.2.2.2.1,
        hide_mini_mini_editor st⟩
    | some d =>
      dsimp only
      rw [if_neg (by rw [hfalse]; simp : ¬ miniShowCond st e = true)]
      exact ⟨hide_mini_shown st, (hide_mini_core st).2.2.2.2.2.2.1,
        hide_mini_mini_editor st⟩

/-- Witness for C5: disabled at `st0`, shown at the zoomed-in `stZoom`,
hidden with the window preserved at `stMini` whose editor has no
document. -/
theorem C5_mini_preview_visibility_witness :
    miniShown (update_mini_editor_window st0 (some 0)) = false ∧
    miniShown (update_mini_editor_window stZoom (some 0)) = true ∧
    (miniShown (update_mini_editor_window stMini (some 0)) = false ∧
      (update_mini_editor_window stMini (some 0)).mini_editor_window
        = stMini.mini_editor_window ∧
      (update_mini_editor_window stMini (some 0)).mini_editor
        = stMini.mini_editor) :=
  ⟨(C5_mini_preview_visibility st0 (some 0)).1 (Or.inl rfl),
   (C5_mini_preview_visibility stZoom (some 0)).2.1 0 rfl rfl
     ⟨10, rfl, rfl, Or.inl ⟨rfl, by decide⟩⟩,
   (C5_mini_preview_visibility stMini (some 0)).2.2 0 rfl rfl
     (by rintro ⟨d, hd, _⟩; exact Option.noConfusion hd)⟩

/-- C7: closing the mini window through its own close button clears the
preview-enabled flag, and shutdown persists exactly that flag; the
programmatic hide path leaves the flag unchanged. -/
theorem C7_close_button_persists (st : State) :
    (mini_window_close st CloseSource.closeButton).mini_editor_enabled
      = false ∧
    (exit_module_editors
      (mini_window_close st CloseSource.closeButton)).miniEnabledSaved
      = false ∧
    (hide_mini_editor_window st).mini_editor_enabled
      = st.mini_editor_enabled :=
  ⟨rfl, rfl, (hide_mini_core st).2.2.2.2.2.2.2⟩

/-- C8: `set_current_editor` is a no-op when the editor is already current,
silently ignores an editor registered as Mini, and never leaves the
active-pane reference pointing at a Mini entry. -/
theorem C8_set_current_guards (st : State) (e : Nat) :
    (st.current_editor = some e → set_current_editor st e = st) ∧
    (kindOf st e = some EKind.Mini → set_current_editor st e = st) ∧
    (e < st.nextId → pointsAtMini st = false →
      pointsAtMini (set_current_editor st e) = false) := by
  refine ⟨fun h => set_current_skip_same h, ?_, ?_⟩
  · intro hk
    by_cases hc : st.current_editor = some e
    · exact set_current_skip_same hc
    · exact set_current_refuse hc hk
  · intro hfresh hpm
    by_cases hc : st.current_editor = some e
    · rw [set_current_skip_same hc]
      exact hpm
    · by_cases hk : kindOf st e = some EKind.Mini
      · rw [set_current_refuse hc hk]
        exact hpm
      · rw [set_current_go hc hk]
        set st1 :=
          { st with
            current_editor := some e,
            activeDocument := st.doc e,
            refreshed := true,
            tabsRebuilt := true } with hst1
        have hcur : (update_mini_editor_window st1 (some e)).current_editor
            = some e := (update_mini_core _ _).1
        have hkind :
            kindOf (update_mini_editor_window st1 (some e)) e
              ≠ some EKind.Mini := by
          rcases update_mini_shape st1 (some e) with hsh | hsh
          · unfold kindOf
            rw [hsh.1]
            exact hk
          · unfold kindOf
            rw [hsh.1]
            have hne : st1.nextId ≠ e := by
              show st.nextId ≠ e
              omega
            rw [kindOf_append_entry hne]
            exact hk
        unfold pointsAtMini
        rw [hcur]
        simp only [decide_eq_false_iff_not]
        exact hkind

/-- Witness for C8 at `stMini`: re-activating the current pane 0 and
activating the Mini pane 1 are both no-ops, and the active pane stays
non-Mini. -/
theorem C8_set_current_guards_witness :
    set_current_editor stMini 0 = stMini ∧
    set_current_editor stMini 1 = stMini ∧
    pointsAtMini (set_current_editor stMini 1) = false :=
  ⟨(C8_set_current_guards stMini 0).1 rfl,
   (C8_set_current_guards stMini 1).2.1 (by decide),
   (C8_set_current_guards stMini 1).2.2 (by decide) (by decide)⟩

/-- C10: an editor absent from the registry that differs from the current
one is never rejected by `set_current_editor`: the Mini refusal applies
only to registered editors, so the unregistered editor becomes current and
all activation side effects run. -/
theorem C10_unregistered_editor_accepted (st : State) (e : Nat)
    (h1 : e ∉ registryIds st) (h2 : st.current_editor ≠ some e) :
    set_current_editor st e =
      update_mini_editor_window
        { st with
          current_editor := some e,
          activeDocument := st.doc e,
          refreshed := true,
          tabsRebuilt := true } (some e) ∧
    (set_current_editor st e).current_editor = some e := by
  have hnone : st.editors.find? (fun p => p.1 == e) = none :=
    List.find?_eq_none.mpr (by
      intro p hp hbe
      exact h1 (List.mem_map.mpr ⟨p, hp, beq_iff_eq.mp hbe⟩))
  have hk : kindOf st e = none := by
    unfold kindOf
    rw [hnone]
    rfl
  have hkne : kindOf st e ≠ some EKind.Mini := by
    rw [hk]
    exact fun h => Option.noConfusion h
  exact ⟨set_current_go h2 hkne, set_current_current_of_go h2 hkne⟩

/-- Witness for C10 at `stMini` with the unregistered editor id 5. -/
theorem C10_unregistered_editor_accepted_witness :
    set_current_editor stMini 5 =
      update_mini_editor_window
        { stMini with
          current_editor := some 5,
          activeDocument := stMini.doc 5,
          refreshed := true,
          tabsRebuilt := true } (some 5) ∧
    (set_current_editor stMini 5).current_editor = some 5 :=
  C10_unregistered_editor_accepted stMini 5 (by decide) (by decide)

/-- Activating a Normal-registered editor from a state where it is not
current makes it current and keeps its registry entry Normal. -/
theorem set_current_into_normal {st1 : State} {n : Nat}
    (hcur1 : st1.current_editor ≠ some n)
    (hkn : kindOf st1 n = some EKind.Normal)
    (hbound : n < st1.nextId) :
    (set_current_editor st1 n).current_editor = some n ∧
    kindOf (set_current_editor st1 n) n = some EKind.Normal := by
  have hkne : kindOf st1 n ≠ some EKind.Mini := by
    rw [hkn]
    decide
  refine ⟨set_current_current_of_go hcur1 hkne, ?_⟩
  rcases set_current_shape st1 n with hsh | hsh
  · unfold kindOf
    rw [hsh.1]
    exact hkn
  · unfold kindOf
    rw [hsh.1]
    have hnen : st1.nextId ≠ n := by omega
    rw [kindOf_append_entry hnen]
    exact hkn

/-- C6: closing the active pane when at least two Normal panes exist leaves
a surviving Normal pane active: the new active pane is non-null, differs
from the closed one, and is never the Mini pane.  The well-formedness
hypotheses say that ids are disciplined and that the tree views are exactly
the Normal registry entries. -/
theorem C6_close_active_picks_normal (st : State) (e : Nat)
    (hcur : st.current_editor = some e)
    (hkind : kindOf st e = some EKind.Normal)
    (hcnt : 2 ≤ normalCount st)
    (hok : IdsOk st)
    (htv : (treeViews st.tree).Nodup)
    (hsub1 : ∀ i ∈ normalIds st, i ∈ treeViews st.tree)
    (hsub2 : ∀ i ∈ treeViews st.tree, i ∈ normalIds st) :
    ∃ st' n, close_editor st e = some st' ∧
      st'.current_editor = some n ∧ n ≠ e ∧
      kindOf st' n = some EKind.Normal := by
  have hmem : (e, EKind.Normal) ∈ st.editors := by
    unfold kindOf at hkind
    cases hf : st.editors.find? (fun p => p.1 == e) with
    | none => rw [hf] at hkind; cases hkind
    | some p =>
      rw [hf] at hkind
      have hp2 : p.2 = EKind.Normal := by simpa using hkind
      have hp1 : p.1 = e := by
        have hb := List.find?_some hf
        simpa using hb
      have hmem0 := List.mem_of_find?_eq_some hf
      obtain ⟨p1, p2⟩ := p
      dsimp only at hp1 hp2
      subst hp1
      subst hp2
      exact hmem0
  have heintree : e ∈ treeViews st.tree := hsub1 e (mem_normalIds_iff.mpr hmem)
  rcases containsView_spliceOut heintree with hv | ⟨p, hsp⟩
  · exfalso
    have hids : ∀ i ∈ normalIds st, i = e := by
      intro i hi
      have hit := hsub1 i hi
      rw [hv] at hit
      simpa [treeViews] using hit
    have hnodupN : (normalIds st).Nodup := by
      show ((st.editors.filter
        (fun q => decide (q.2 = EKind.Normal))).map Prod.fst).Nodup
      exact hok.1.sublist ((List.filter_sublist st.editors).map Prod.fst)
    have hlen : (normalIds st).length ≤ 1 := nodup_subset_singleton hnodupN hids
    have hlen2 : (normalIds st).length = normalCount st := by
      unfold normalIds normalCount
      exact List.length_map _ _
    omega
  · have hne1 : ¬ normalCount st = 1 := by omega
    have hclose : close_editor st e = some (set_current_editor
        { st with
          tree := p.1,
          current_editor := none,
          editors := st.editors.filter (fun q => decide (q.1 ≠ e)) }
        (find_next_editor p.2)) := by
      unfold close_editor
      rw [if_neg hne1, hsp]
      dsimp only
      rw [if_pos hcur]
    have hperm := spliceOut_perm hsp
    have hnodup2 : (e :: treeViews p.1).Nodup := hperm.nodup_iff.mp htv
    have hnp1 : find_next_editor p.2 ∈ treeViews p.1 :=
      spliceOut_other_subset hsp (find_next_mem p.2)
    have hnee : find_next_editor p.2 ≠ e := by
      intro hh
      exact (List.nodup_cons.mp hnodup2).1 (hh ▸ hnp1)
    have hntree : find_next_editor p.2 ∈ treeViews st.tree := by
      rw [hperm.mem_iff]
      exact List.mem_cons_of_mem e hnp1
    have hnnorm : (find_next_editor p.2, EKind.Normal) ∈ st.editors :=
      mem_normalIds_iff.mp (hsub2 _ hntree)
    have hfindn : st.editors.find? (fun q => q.1 == find_next_editor p.2)
        = some (find_next_editor p.2, EKind.Normal) :=
      find?_eq_of_nodup_mem hok.1 hnnorm
    have hkst1 : kindOf
        { st with
          tree := p.1,
          current_editor := none,
          editors := st.editors.filter (fun q => decide (q.1 ≠ e)) }
        (find_next_editor p.2) = some EKind.Normal := by
      show ((st.editors.filter (fun q => decide (q.1 ≠ e))).find?
        (fun q => q.1 == find_next_editor p.2)).map (fun q => q.2)
          = some EKind.Normal
      rw [find?_filter_ne st.editors e (find_next_editor p.2) hnee, hfindn]
      rfl
    have hcur1 : ({ st with
        tree := p.1,
        current_editor := none,
        editors := st.editors.filter (fun q => decide (q.1 ≠ e)) }
          : State).current_editor ≠ some (find_next_editor p.2) := by
      show (none : Option Nat) ≠ some (find_next_editor p.2)
      exact fun hh => Option.noConfusion hh
    have hbound : find_next_editor p.2 <
        ({ st with
          tree := p.1,
          current_editor := none,
          editors := st.editors.filter (fun q => decide (q.1 ≠ e)) }
            : State).nextId := by
      show find_next_editor p.2 < st.nextId
      exact hok.2 _ (List.mem_map.mpr ⟨(find_next_editor p.2, EKind.Normal),
        hnnorm, rfl⟩)
    have haux := set_current_into_normal hcur1 hkst1 hbound
    exact ⟨_, find_next_editor p.2, hclose, haux.1, hnee, haux.2⟩

/-- Witness for C6 at the two-pane state `stTwo`, closing the active pane
0: pane 1 survives and becomes active. -/
theorem C6_close_active_picks_normal_witness :
    ∃ st' n, close_editor stTwo 0 = some st' ∧
      st'.current_editor = some n ∧ n ≠ 0 ∧
      kindOf st' n = some EKind.Normal :=
  C6_close_active_picks_normal stTwo 0 rfl (by decide) (by decide)
    ⟨by decide, by decide⟩ (by decide) (by decide) (by decide)

/-- Re-synchronizing the mini document never touches an editor whose
document already is `d` — in particular not the active editor the document
was read from, even when the mini-editor reference points at it. -/
theorem syncMini_doc_zoom_self (st : State) (d e : Nat)
    (hd : st.doc e = some d) :
    (syncMiniDoc st d).doc e = st.doc e ∧
    (syncMiniDoc st d).zoom e = st.zoom e := by
  unfold syncMiniDoc
  split
  · rename_i m hm
    split
    · exact ⟨rfl, rfl⟩
    · rename_i hne
      have him : e ≠ m := by
        intro hh
        rw [← hh] at hne
        exact hne hd
      constructor <;> simp [him]
  · exact ⟨rfl, rfl⟩

/-- The show branch preserves the document and zoom of the active editor
`e` itself, requiring only that `e` is not the freshly allocated mini id. -/
theorem showMini_doc_zoom_self (st : State) (d e : Nat)
    (hd : st.doc e = some d) (h2 : e ≠ st.nextId) :
    (showMini st d).doc e = st.doc e ∧ (showMini st d).zoom e = st.zoom e := by
  unfold showMini
  split
  · have hd2 : (openMiniIfHidden st).doc e = some d := by
      rw [(openMini_core st).2.2.2.2.1]
      exact hd
    have hs := syncMini_doc_zoom_self (openMiniIfHidden st) d e hd2
    rw [hs.1, hs.2, (openMini_core st).2.2.2.2.1, (openMini_core st).2.2.2.2.2.1]
    exact ⟨rfl, rfl⟩
  · have hm : (openMiniIfHidden (create_mini_editor_window st)).mini_editor
        ≠ some e := by
      rw [(openMini_core _).2.2.2.2.2.2.1]
      show ¬ some st.nextId = some e
      intro hh
      exact h2 (Option.some.inj hh).symm
    have hs :=
      syncMini_doc_zoom_at (openMiniIfHidden (create_mini_editor_window st)) d e hm
    rw [hs.1, hs.2, (openMini_core _).2.2.2.2.1, (openMini_core _).2.2.2.2.2.1]
    constructor
    · show (if e = st.nextId then none else st.doc e) = st.doc e
      rw [if_neg h2]
    · show (if e = st.nextId then 0 else st.zoom e) = st.zoom e
      rw [if_neg h2]

/-- A mini-preview resync against editor `e` preserves the document and
zoom of `e` itself (only freshness of the allocation counter is needed). -/
theorem update_mini_doc_zoom_self (st : State) (e : Nat)
    (h2 : e ≠ st.nextId) :
    (update_mini_editor_window st (some e)).doc e = st.doc e ∧
    (update_mini_editor_window st (some e)).zoom e = st.zoom e := by
  unfold update_mini_editor_window
  dsimp only
  split
  · rw [(hide_mini_core st).2.2.2.2.1, (hide_mini_core st).2.2.2.2.2.1]
    exact ⟨rfl, rfl⟩
  · cases hdoc : st.doc e with
    | none =>
      rw [(hide_mini_core st).2.2.2.2.1, (hide_mini_core st).2.2.2.2.2.1]
      exact ⟨hdoc, rfl⟩
    | some d =>
      dsimp only
      split
      · have hs := showMini_doc_zoom_self st d e hdoc h2
        rw [hs.1, hs.2]
        exact ⟨hdoc, rfl⟩
      · rw [(hide_mini_core st).2.2.2.2.1, (hide_mini_core st).2.2.2.2.2.1]
        exact ⟨hdoc, rfl⟩

/-- Activating editor `e` preserves `e`'s own document and zoom, whatever
its registry kind and wherever the mini-editor reference points. -/
theorem set_current_doc_zoom_self (st : State) (e : Nat)
    (h2 : e ≠ st.nextId) :
    (set_current_editor st e).doc e = st.doc e ∧
    (set_current_editor st e).zoom e = st.zoom e := by
  unfold set_current_editor
  split
  · exact ⟨rfl, rfl⟩
  · split
    · exact ⟨rfl, rfl⟩
    · exact update_mini_doc_zoom_self _ e h2

/-- C9 counterexample: `make_unique_editor` on the registered Mini pane of
`stMini` proceeds (two registry entries exist) but does not make the given
pane active — `set_current_editor` refuses the Mini pane — refuting the
claim that after a non-no-op call the given pane is active. -/
theorem C9_make_unique_counterexample :
    stMini.editors.length ≠ 1 ∧
    (make_unique_editor stMini 1).tree = Widget.view 1 ∧
    (make_unique_editor stMini 1).current_editor ≠ some 1 := by
  decide

/-- C9 amended: `make_unique_editor` is a no-op when exactly one registry
entry exists; otherwise the given pane's view becomes the sole child of the
editor box with document and zoom unchanged, every other pane previously in
the box is destroyed and deregistered, and the pane becomes active provided
it is not registered as Mini — for the registered Mini pane the activation
is refused and the previous active-pane reference is left in place. -/
theorem C9_make_unique_amended (st : State) (e : Nat)
    (htv : (treeViews st.tree).Nodup)
    (hfresh : e < st.nextId)
    (htb : ∀ i ∈ treeViews st.tree, i < st.nextId) :
    (st.editors.length = 1 → make_unique_editor st e = st) ∧
    (st.editors.length ≠ 1 →
      (make_unique_editor st e).tree = Widget.view e ∧
      (make_unique_editor st e).doc e = st.doc e ∧
      (make_unique_editor st e).zoom e = st.zoom e ∧
      (kindOf st e ≠ some EKind.Mini →
        (make_unique_editor st e).current_editor = some e) ∧
      (kindOf st e = some EKind.Mini →
        (make_unique_editor st e).current_editor = st.current_editor) ∧
      (∀ i ∈ treeViews st.tree, i ≠ e →
        i ∉ registryIds (make_unique_editor st e))) := by
  constructor
  · intro h
    unfold make_unique_editor
    rw [if_pos h]
  · intro h
    unfold make_unique_editor
    rw [if_neg h]
    dsimp only
    have h2 : e ≠ ({ st with
        tree := Widget.view e,
        editors := st.editors.filter
          (fun q => decide (q.1 ∉ (treeViews st.tree).erase e)) }
            : State).nextId := by
      show e ≠ st.nextId
      omega
    have hkeep : ∀ q : Nat × EKind, q.1 = e →
        (decide (q.1 ∉ (treeViews st.tree).erase e)) = true := by
      intro q hq
      rw [hq]
      simp only [decide_eq_true_eq]
      intro hmem
      exact absurd rfl (htv.mem_erase_iff.mp hmem).1
    have hkfilter : kindOf
        { st with
          tree := Widget.view e,
          editors := st.editors.filter
            (fun q => decide (q.1 ∉ (treeViews st.tree).erase e)) } e
          = kindOf st e := by
      show ((st.editors.filter
        (fun q => decide (q.1 ∉ (treeViews st.tree).erase e))).find?
          (fun q => q.1 == e)).map (fun q => q.2)
        = (st.editors.find? (fun q => q.1 == e)).map (fun q => q.2)
      rw [find?_filter_key hkeep]
    refine ⟨?_, ?_, ?_, ?_, ?_, ?_⟩
    · rw [set_current_tree]
    · exact (set_current_doc_zoom_self _ e h2).1
    · exact (set_current_doc_zoom_self _ e h2).2
    · intro hkind
      have hkind1 : kindOf
          { st with
            tree := Widget.view e,
            editors := st.editors.filter
              (fun q => decide (q.1 ∉ (treeViews st.tree).erase e)) } e
            ≠ some EKind.Mini := by
        rw [hkfilter]
        exact hkind
      by_cases hc : ({ st with
          tree := Widget.view e,
          editors := st.editors.filter
            (fun q => decide (q.1 ∉ (treeViews st.tree).erase e)) }
              : State).current_editor = some e
      · rw [set_current_skip_same hc]
        exact hc
      · exact set_current_current_of_go hc hkind1
    · intro hkindM
      have hkM1 : kindOf
          { st with
            tree := Widget.view e,
            editors := st.editors.filter
              (fun q => decide (q.1 ∉ (treeViews st.tree).erase e)) } e
            = some EKind.Mini := by
        rw [hkfilter]
        exact hkindM
      by_cases hc : ({ st with
          tree := Widget.view e,
          editors := st.editors.filter
            (fun q => decide (q.1 ∉ (treeViews st.tree).erase e)) }
              : State).current_editor = some e
      · rw [set_current_skip_same hc]
      · rw [set_current_refuse hc hkM1]
    · intro i hi hie
      have hidest : i ∈ (treeViews st.tree).erase e :=
        (List.mem_erase_of_ne hie).mpr hi
      rcases set_current_shape
        { st with
          tree := Widget.view e,
          editors := st.editors.filter
            (fun q => decide (q.1 ∉ (treeViews st.tree).erase e)) } e
        with hsh | hsh
      · unfold registryIds
        rw [hsh.1]
        intro hmem
        rcases List.mem_map.mp hmem with ⟨q, hq, rfl⟩
        have hflt := List.mem_filter.mp hq
        exact (by simpa using hflt.2 : q.1 ∉ _) hidest
      · unfold registryIds
        rw [hsh.1, List.map_append]
        intro hmem
        rcases List.mem_append.mp hmem with hm | hm
        · rcases List.mem_map.mp hm with ⟨q, hq, rfl⟩
          have hflt := List.mem_filter.mp hq
          exact (by simpa using hflt.2 : q.1 ∉ _) hidest
        · simp only [List.map_cons, List.map_nil, List.mem_singleton] at hm
          have hlt := htb i hi
          have hm2 : i = st.nextId := hm
          omega

/-- Witness for C9 amended: unifying around the Normal pane 1 of `stTwo`
activates it and deregisters pane 0; unifying around the registered Mini
pane 1 of `stMini` keeps its document and zoom, deregisters pane 0, and
leaves the previous active-pane reference in place. -/
theorem C9_make_unique_amended_witness :
    ((make_unique_editor stTwo 1).tree = Widget.view 1 ∧
      (make_unique_editor stTwo 1).current_editor = some 1 ∧
      (make_unique_editor stTwo 1).doc 1 = stTwo.doc 1 ∧
      0 ∉ registryIds (make_unique_editor stTwo 1)) ∧
    ((make_unique_editor stMini 1).tree = Widget.view 1 ∧
      (make_unique_editor stMini 1).doc 1 = stMini.doc 1 ∧
      (make_unique_editor stMini 1).zoom 1 = stMini.zoom 1 ∧
      (make_unique_editor stMini 1).current_editor = stMini.current_editor ∧
      0 ∉ registryIds (make_unique_editor stMini 1)) :=
  have h := (C9_make_unique_amended stTwo 1 (by decide)
    (by decide) (by decide)).2 (by decide)
  have hm := (C9_make_unique_amended stMini 1 (by decide)
    (by decide) (by decide)).2 (by decide)
  ⟨⟨h.1, h.2.2.2.1 (by decide), h.2.1, h.2.2.2.2.2 0 (by decide) (by decide)⟩,
   ⟨hm.1, hm.2.1, hm.2.2.1, hm.2.2.2.2.1 (by decide),
    hm.2.2.2.2.2 0 (by decide) (by decide)⟩⟩

/-- C4 counterexample: in `stShared` both panes show document 10 and
documents 20 and 30 are unreferenced; hiding document 10 rebinds pane 0 to
document 20 (the pre-call fallback) but pane 1 to document 30 — the panes
do not all end on the same fallback document. -/
theorem C4_hide_document_counterexample :
    stShared.doc 0 = some 10 ∧ stShared.doc 1 = some 10 ∧
    get_more_reliable_document stShared = some 20 ∧
    (editors_hide_document stShared 10).map (fun s => s.doc 0)
      = some (some 20) ∧
    (editors_hide_document stShared 10).map (fun s => s.doc 1)
      = some (some 30) := by
  decide

/-- C4 amended: hiding a document rebinds each pane that references it, in
registry order, to the fallback recomputed at that pane's turn, so panes
may end on different documents; afterwards no pane references the hidden
document, panes that did not reference it are untouched, and the first
referencing pane receives the pre-call fallback.  If the context's active
document was the hidden one, the current editor's resulting document
becomes active and a refresh is forced; otherwise the active document and
current editor are untouched. -/
theorem C4_hide_document_amended (st : State) (target : Nat) (st' : State)
    (h : editors_hide_document st target = some st') :
    (∀ i k, (i, k) ∈ st.editors → st'.doc i ≠ some target) ∧
    (∀ i, st.doc i ≠ some target → st'.doc i = st.doc i) ∧
    (∀ pre q suf, st.editors = pre ++ q :: suf →
      st.doc q.1 = some target →
      (∀ r ∈ pre, st.doc r.1 ≠ some target) →
      st'.doc q.1 = get_more_reliable_document st) ∧
    (st.activeDocument = some target →
      ∃ c, st'.current_editor = some c ∧
        st'.activeDocument = st'.doc c ∧ st'.refreshed = true) ∧
    (st.activeDocument ≠ some target →
      st'.current_editor = st.current_editor ∧
      st'.activeDocument = st.activeDocument) := by
  unfold editors_hide_document at h
  dsimp only at h
  by_cases hact : st.activeDocument = some target
  · rw [if_pos hact] at h
    cases hcc : (hideDocLoop target st st.editors).current_editor with
    | none =>
      rw [hcc] at h
      cases h
    | some c =>
      rw [hcc] at h
      dsimp only at h
      cases h
      refine ⟨?_, ?_, ?_, ?_, ?_⟩
      · intro i k hm hcontra
        have hno := hideDocLoop_no_target target st.editors st
          (fun q hq => hq) i hcontra
        exact hno.2 k hm
      · intro i hne
        exact hideDocLoop_untouched target st.editors st i hne
      · intro pre q suf hl hdq hpre
        show (hideDocLoop target st st.editors).doc q.1
          = get_more_reliable_document st
        rw [hl]
        exact hideDocLoop_first target pre q suf st
          (by rw [hl]; exact List.mem_append_right pre (List.mem_cons_self q suf))
          hpre hdq
      · intro _
        exact ⟨c, rfl, rfl, rfl⟩
      · intro hne
        exact absurd hact hne
  · rw [if_neg hact] at h
    cases h
    refine ⟨?_, ?_, ?_, ?_, ?_⟩
    · intro i k hm hcontra
      have hno := hideDocLoop_no_target target st.editors st
        (fun q hq => hq) i hcontra
      exact hno.2 k hm
    · intro i hne
      exact hideDocLoop_untouched target st.editors st i hne
    · intro pre q suf hl hdq hpre
      show (hideDocLoop target st st.editors).doc q.1
        = get_more_reliable_document st
      rw [hl]
      exact hideDocLoop_first target pre q suf st
        (by rw [hl]; exact List.mem_append_right pre (List.mem_cons_self q suf))
        hpre hdq
    · intro hcontra
      exact absurd hcontra hact
    · intro _
      exact ⟨(hideDocLoop_frame target st.editors st).2.1,
        (hideDocLoop_frame target st.editors st).2.2.1⟩

/-- Witness for C4 amended at `stShared`: after hiding document 10 no pane
references it, unreferencing panes keep their document, the first pane got
the pre-call fallback, and the current editor is untouched. -/
theorem C4_hide_document_amended_witness :
    (∀ i k, (i, k) ∈ stShared.editors → stSharedAfter.doc i ≠ some 10) ∧
    stSharedAfter.doc 2 = stShared.doc 2 ∧
    stSharedAfter.doc 0 = get_more_reliable_document stShared ∧
    stSharedAfter.current_editor = stShared.current_editor :=
  have h := C4_hide_document_amended stShared 10 stSharedAfter rfl
  ⟨h.1, h.2.1 2 (by decide),
    h.2.2.1 [] (0, EKind.Normal) [(1, EKind.Normal)] rfl rfl (by simp),
    (h.2.2.2.2 (by decide)).1⟩

end Editors
